import Mathlib

/-
Verification of the concurrency/retry core of browser-use-optimized.

Shallow embedding of:
  - src/browser_use/retry_utils.py   (RetryConfig, retry_async / retry_sync,
                                      CircuitBreaker)
  - src/browser_use/browser/health_checker.py
                                     (BrowserHealthChecker.is_page_healthy,
                                      healthy_browser_required)
  - src/browser_use/browser/pool.py  (BrowserPool)

Python floats (delays, wall-clock times) are modelled as rationals, Python
ints as Nat/Int, exception objects as values of an abstract type together
with a Boolean classifier standing for the `except (...)` isinstance test,
and the cooperative-async code as sequential state-passing functions (the
atomic sections of the source are its lock-protected blocks).  Loops that
wait on external events carry an explicit fuel argument; running out of
fuel is reported as a distinct outcome, never as success.
-/

namespace BrowserUseOpt

/- ### RetryConfig and delay computation (retry_utils.py lines 11-52)

The `exceptions` tuple of exception classes is modelled as a list of
exception-type tags. -/

structure RetryConfig where
  max_retries : Nat
  initial_delay : ℚ
  max_delay : ℚ
  exponential_base : ℚ
  jitter : Bool
  exceptions : List Nat
deriving DecidableEq

/-- Embedding of `RetryConfig.__init__` defaults (lines 16-21): the default
exception tuple `(Exception,)` is tag list `[0]`. -/
def defaultRetryConfig : RetryConfig :=
  { max_retries := 3, initial_delay := 1, max_delay := 60, exponential_base := 2
    jitter := true, exceptions := [0] }

/-- Embedding of `RetryConfig.calculate_delay` (lines 40-52).  `r` stands for
the value of `random.random()`, which lies in `[0, 1)`. -/
def calculate_delay (cfg : RetryConfig) (attempt : Nat) (r : ℚ) : ℚ :=
  let delay := min (cfg.initial_delay * cfg.exponential_base ^ (attempt - 1)) cfg.max_delay
  if cfg.jitter then delay + delay * (1/4) * r else delay

/- ### retry_async / retry_sync decorator factories (lines 55-79 / 115-139)

Both factories take an optional config plus keyword overrides and write the
overrides into the config object before building the wrapper; the returned
value here is the config the wrapper will read. -/

/-- Embedding of the shared override block (retry_utils.py lines 70-79 and
130-139): `config = config or RetryConfig()`, then each provided keyword
argument is assigned into the config. -/
def applyOverrides (config : Option RetryConfig) (m : Option Nat) (d : Option ℚ)
    (ex : Option (List Nat)) : RetryConfig :=
  let cfg := config.getD defaultRetryConfig
  let cfg := match m with | some v => { cfg with max_retries := v } | none => cfg
  let cfg := match d with | some v => { cfg with initial_delay := v } | none => cfg
  match ex with | some v => { cfg with exceptions := v } | none => cfg

/-- Config-level embedding of `retry_async` (lines 55-79). -/
def retry_async_factory (config : Option RetryConfig) (m : Option Nat) (d : Option ℚ)
    (ex : Option (List Nat)) : RetryConfig :=
  applyOverrides config m d ex

/-- Config-level embedding of `retry_sync` (lines 115-139); its override
block is textually identical to the async one. -/
def retry_sync_factory (config : Option RetryConfig) (m : Option Nat) (d : Option ℚ)
    (ex : Option (List Nat)) : RetryConfig :=
  applyOverrides config m d ex

/- ### The retry loop of the generated wrapper (lines 81-111 / 141-172)

`op k` is the outcome of the k-th invocation of the wrapped function
(1-indexed): `.ok a` models a normal return, `.error e` models raising
exception `e`.  `retryable e` models `isinstance(e, config.exceptions)`.
The result records the exact number of invocations performed. -/

inductive RetryOutcome (ε α : Type) where
  | ok (a : α) (calls : Nat)
  | err (e : ε) (calls : Nat)
  | exhausted (calls : Nat)
deriving DecidableEq

/-- Number of times the wrapped operation was invoked. -/
def RetryOutcome.calls {ε α : Type} : RetryOutcome ε α → Nat
  | .ok _ n => n
  | .err _ n => n
  | .exhausted n => n

/-- One iteration structure of `for attempt in range(1, config.max_retries + 2)`
(lines 86-105): the fuel argument is the number of loop iterations left; the
`.exhausted` outcome is the dead code after the loop (lines 107-109). -/
def retryLoop {ε α : Type} (maxR : Nat) (retryable : ε → Bool)
    (op : Nat → Except ε α) : Nat → Nat → RetryOutcome ε α
  | attempt, 0 => .exhausted (attempt - 1)
  | attempt, fuel + 1 =>
    match op attempt with
    | .ok a => .ok a attempt
    | .error e =>
      if retryable e then
        if maxR < attempt then .err e attempt
        else retryLoop maxR retryable op (attempt + 1) fuel
      else .err e attempt

/-- Embedding of the wrapper body of `retry_async` / `retry_sync`: the loop
starts at attempt 1 and performs at most `max_retries + 1` iterations. -/
def retryRun {ε α : Type} (maxR : Nat) (retryable : ε → Bool)
    (op : Nat → Except ε α) : RetryOutcome ε α :=
  retryLoop maxR retryable op 1 (maxR + 1)

/- ### CircuitBreaker (retry_utils.py lines 204-287) -/

inductive CBStatus where
  | closed
  | opened
  | halfOpen
deriving DecidableEq

structure CBConfig where
  failure_threshold : Nat
  recovery_timeout : ℚ
deriving DecidableEq

structure CBState where
  failure_count : Nat
  last_failure_time : Option ℚ
  status : CBStatus
deriving DecidableEq

/-- State after `CircuitBreaker.__init__` (lines 224-226). -/
def cbInit : CBState :=
  { failure_count := 0, last_failure_time := none, status := .closed }

/-- Embedding of the `state` property (lines 228-239): reading the state
lazily mutates `open` to `half-open` once `recovery_timeout` has elapsed
since the last failure.  The guard `if self._last_failure_time:` on
line 233 is a Python truthiness test on an `Optional[float]`, so both
`None` and a timestamp of exactly `0.0` are falsy and skip the elapsed
check.  Returns the value read and the updated state. -/
def readState (cfg : CBConfig) (now : ℚ) (s : CBState) : CBStatus × CBState :=
  if s.status = .opened then
    match s.last_failure_time with
    | some t =>
      if t ≠ 0 then
        if cfg.recovery_timeout < now - t then
          (.halfOpen, { s with status := .halfOpen })
        else (.opened, s)
      else (.opened, s)
    | none => (.opened, s)
  else (s.status, s)

/-- Embedding of `_on_success` (lines 267-274). -/
def onSuccess (s : CBState) : CBState :=
  let s := if s.status = .halfOpen then { s with status := .closed } else s
  { s with failure_count := 0, last_failure_time := none }

/-- Embedding of `_on_failure` (lines 276-287): `now` is the `time.time()`
read inside it. -/
def onFailure (cfg : CBConfig) (now : ℚ) (s : CBState) : CBState :=
  let s := { s with failure_count := s.failure_count + 1, last_failure_time := some now }
  if cfg.failure_threshold ≤ s.failure_count then { s with status := .opened }
  else if s.status = .halfOpen then { s with status := .opened }
  else s

inductive CallResult (ε : Type) where
  | ok
  | circuitOpen
  | raised (e : ε)
deriving DecidableEq

/-- Embedding of `CircuitBreaker.call` (lines 241-252); `async_call`
(lines 254-265) has exactly the same guard and transition logic, so this
one function models both.  `outcome` is what the guarded operation would do
if invoked (`none` = return normally, `some e` = raise `e`); `isExpected`
models `isinstance(e, self.expected_exception)`.  The Boolean in the result
records whether the guarded operation was actually invoked. -/
def CBcall {ε : Type} (cfg : CBConfig) (now : ℚ) (outcome : Option ε)
    (isExpected : ε → Bool) (s : CBState) : CallResult ε × CBState × Bool :=
  let r := readState cfg now s
  if r.1 = .opened then (.circuitOpen, r.2, false)
  else
    match outcome with
    | none => (.ok, onSuccess r.2, true)
    | some e =>
      if isExpected e then (.raised e, onFailure cfg now r.2, true)
      else (.raised e, r.2, true)

/-- Folding a sequence of calls whose guarded operation raises the expected
exception `e`, at the given sequence of `time.time()` values. -/
def applyFailCalls {ε : Type} (cfg : CBConfig) (isExp : ε → Bool) (e : ε)
    (ts : List ℚ) (s : CBState) : CBState :=
  ts.foldl (fun st t => (CBcall cfg t (some e) isExp st).2.1) s

/- ### BrowserHealthChecker (health_checker.py lines 13-95) -/

/-- Outcome of `page.evaluate('1 + 1')`: either a value, or an exception /
timeout. -/
inductive ProbeOutcome where
  | value (v : Int)
  | raises
deriving DecidableEq

/-- A page handle as the health checker sees it: an identity (the cache
key), whether `is_closed()` returns True, and what `evaluate('1 + 1')`
would do. -/
structure PageModel where
  id : Nat
  closed : Bool
  probe : ProbeOutcome
deriving DecidableEq

/-- The `_health_cache` dict: page identity to (healthy, timestamp). -/
def HealthCache : Type := Nat → Option (Bool × ℚ)

def emptyHealthCache : HealthCache := fun _ => none

/-- Dict assignment `self._health_cache[page] = v`. -/
def cacheSet (c : HealthCache) (k : Nat) (v : Bool × ℚ) : HealthCache :=
  fun x => if x = k then some v else c x

/-- Embedding of `is_page_healthy` (lines 26-67) with `cache_ttl = ttl` and
`now` the `time.time()` value of this call.  Returns (result, updated
cache, whether a probe `evaluate` round-trip was issued). -/
def is_page_healthy (ttl : ℚ) (cache : HealthCache) (now : ℚ)
    (page : Option PageModel) : Bool × HealthCache × Bool :=
  match page with
  | none => (false, cache, false)
  | some p =>
    let cachedFresh : Option Bool :=
      match cache p.id with
      | some (h, ts) => if now - ts < ttl then some h else none
      | none => none
    match cachedFresh with
    | some h => (h, cache, false)
    | none =>
      if p.closed then (false, cacheSet cache p.id (false, now), false)
      else
        match p.probe with
        | .value v => (v == 2, cacheSet cache p.id (v == 2, now), true)
        | .raises => (false, cacheSet cache p.id (false, now), true)

/- ### healthy_browser_required (health_checker.py lines 102-122) -/

/-- The attributes of `self` that the decorator touches: the current page
(`none` models both a missing attribute and a falsy one) and whether
`self.browser_context` exists and is truthy. -/
structure SelfModel where
  agent_current_page : Option PageModel
  browser_context : Bool
deriving DecidableEq

structure GuardResult where
  selfAfter : SelfModel
  cacheAfter : HealthCache
  recoveryAttempts : Nat
  opInvoked : Bool

/-- Embedding of the `healthy_browser_required` wrapper body: health-check
the current page against the global checker's cache; on an unhealthy
verdict, if a browser context is available, make exactly one
`new_page()` attempt (`newPage` is its outcome) and on success install the
new page; in every case fall through to invoking the wrapped function. -/
def healthy_browser_required_run (ttl : ℚ) (cache : HealthCache) (now : ℚ)
    (s : SelfModel) (newPage : Except Unit PageModel) : GuardResult :=
  match s.agent_current_page with
  | none => ⟨s, cache, 0, true⟩
  | some p =>
    let res := is_page_healthy ttl cache now (some p)
    if res.1 then ⟨s, res.2.1, 0, true⟩
    else if s.browser_context then
      match newPage with
      | .ok np => ⟨{ s with agent_current_page := some np }, res.2.1, 1, true⟩
      | .error _ => ⟨s, res.2.1, 1, true⟩
    else ⟨s, res.2.1, 0, true⟩

/- ### BrowserPool (pool.py lines 14-180)

Browsers are identified by the Nat id they were created with (`nextId` is
the next fresh id).  `counts` is the `_context_counts` dict (Python ints,
so Int-valued), `queue` the FIFO `_available_browsers`, `browsers` the
`_browsers` list.  `conn : Nat → Bool` is the environment's answer to
`browser.browser.is_connected()` during one acquisition; browser start and
`new_context()` are taken to succeed (their failure modes are outside the
claims below). -/

structure PoolState where
  browsers : List Nat
  queue : List Nat
  counts : Nat → Option Int
  nextId : Nat
  isInit : Bool
  isShutdown : Bool

/-- State after `BrowserPool.__init__` (lines 34-39). -/
def emptyPool : PoolState :=
  { browsers := [], queue := [], counts := fun _ => none, nextId := 0
    isInit := false, isShutdown := false }

/-- Dict assignment `self._context_counts[b] = v`. -/
def countsSet (c : Nat → Option Int) (k : Nat) (v : Int) : Nat → Option Int :=
  fun x => if x = k then some v else c x

/-- Dict deletion `del self._context_counts[b]` (guarded by a membership
test in the source, so absent keys are a no-op). -/
def countsDel (c : Nat → Option Int) (k : Nat) : Nat → Option Int :=
  fun x => if x = k then none else c x

/-- Embedding of `initialize` (lines 41-59): on first call create one
browser, register it with count 0 and put it on the availability queue. -/
def initPool (s : PoolState) : PoolState :=
  if s.isInit then s
  else
    { s with browsers := s.browsers ++ [s.nextId]
             counts := countsSet s.counts s.nextId 0
             queue := s.queue ++ [s.nextId]
             isInit := true
             nextId := s.nextId + 1 }

inductive GetResult where
  | ok (s : PoolState) (b : Nat)
  | poolClosed (s : PoolState)
  | outOfFuel (s : PoolState)

/-- Embedding of `_get_available_browser` (lines 110-150).  Each fuel unit
is one iteration of the `while not self._shutdown` loop; the shutdown test
precedes the iteration, and falling out of the loop raises the
pool-closed RuntimeError of line 150.  Queue hits pop the FIFO front; a
disconnected browser is evicted from the tracked list and counts; a
browser at context capacity is pushed to the back; on queue timeout a new
browser is created if under `max_browsers`, else the loop sleeps and
retries. -/
def getAvailableBrowser (maxB maxC : Nat) (conn : Nat → Bool) :
    Nat → PoolState → GetResult
  | 0, s => if s.isShutdown then .poolClosed s else .outOfFuel s
  | fuel + 1, s =>
    if s.isShutdown then .poolClosed s
    else
      match s.queue with
      | b :: rest =>
        if conn b = false then
          getAvailableBrowser maxB maxC conn fuel
            { s with queue := rest, browsers := s.browsers.erase b
                     counts := countsDel s.counts b }
        else if (s.counts b).getD 0 < (maxC : Int) then
          .ok { s with queue := rest } b
        else
          getAvailableBrowser maxB maxC conn fuel { s with queue := rest ++ [b] }
      | [] =>
        if s.browsers.length < maxB then
          .ok { s with browsers := s.browsers ++ [s.nextId]
                       counts := countsSet s.counts s.nextId 0
                       nextId := s.nextId + 1 } s.nextId
        else
          getAvailableBrowser maxB maxC conn fuel s

inductive AcqResult where
  | ok (s : PoolState) (b : Nat)
  | poolClosed (s : PoolState)
  | outOfFuel (s : PoolState)
  | keyErr (s : PoolState)

/-- Embedding of the acquisition half of `acquire_context` (lines 68-88):
initialize if needed, obtain a browser, create a context (assumed to
succeed) and increment the browser's context count.  `.keyErr` is the
KeyError Python would raise on line 85 if the browser had no counts entry
(proved unreachable from reachable states below). -/
def acquireContext (maxB maxC : Nat) (conn : Nat → Bool) (fuel : Nat)
    (s : PoolState) : AcqResult :=
  let s0 := if s.isInit then s else initPool s
  match getAvailableBrowser maxB maxC conn fuel s0 with
  | .ok s1 b =>
    match s1.counts b with
    | some c => .ok { s1 with counts := countsSet s1.counts b (c + 1) } b
    | none => .keyErr s1
  | .poolClosed s1 => .poolClosed s1
  | .outOfFuel s1 => .outOfFuel s1

/-- Embedding of the `finally` half of `acquire_context` (lines 90-108):
close the context, and if the browser is still tracked decrement its count
and requeue it when under capacity. -/
def releaseContext (maxC : Nat) (b : Nat) (s : PoolState) : PoolState :=
  match s.counts b with
  | none => s
  | some c =>
    let s1 := { s with counts := countsSet s.counts b (c - 1) }
    if c - 1 < (maxC : Int) then { s1 with queue := s1.queue ++ [b] } else s1

/-- Embedding of `shutdown` (lines 152-170): set the shutdown flag, gather
a `close()` on every tracked browser with `return_exceptions=True`
(`closeFails b` says whether browser b's close raises; every close is
attempted either way), then clear the tracked list and the counts dict and
reset the init flag.  Returns the new state and the list of
(browser, close succeeded) attempts. -/
def shutdownPool (closeFails : Nat → Bool) (s : PoolState) :
    PoolState × List (Nat × Bool) :=
  ({ s with isShutdown := true, browsers := [], counts := fun _ => none
            isInit := false },
   s.browsers.map fun b => (b, !closeFails b))

/- ### Scoped-acquisition traces for the pool invariant

A trace interleaves `initialize`, scoped acquisitions and releases of
previously acquired (still outstanding) contexts; the second component of
a configuration is the multiset of outstanding acquisitions, by owning
browser id. -/

inductive PoolOp where
  | init
  | acquire (conn : Nat → Bool) (fuel : Nat)
  | release (b : Nat)

def stepOp (maxB maxC : Nat) (c : PoolState × List Nat) : PoolOp → PoolState × List Nat
  | .init => (initPool c.1, c.2)
  | .acquire conn fuel =>
    match acquireContext maxB maxC conn fuel c.1 with
    | .ok s b => (s, b :: c.2)
    | .poolClosed s => (s, c.2)
    | .outOfFuel s => (s, c.2)
    | .keyErr s => (s, c.2)
  | .release b =>
    if b ∈ c.2 then (releaseContext maxC b c.1, c.2.erase b) else c

def runOps (maxB maxC : Nat) (ops : List PoolOp) (c : PoolState × List Nat) :
    PoolState × List Nat :=
  ops.foldl (stepOp maxB maxC) c

def runPool (maxB maxC : Nat) (ops : List PoolOp) : PoolState × List Nat :=
  runOps maxB maxC ops (emptyPool, [])

/-- Core pool invariant: the tracked-browser bound, the correspondence of
each counts entry with the outstanding acquisitions on that browser
(which yields `0 ≤ count ≤ maxC`), and freshness of `nextId`. -/
def PoolInvCore (maxB maxC : Nat) (s : PoolState) (out : List Nat) : Prop :=
  s.browsers.length ≤ maxB ∧
  (∀ b cnt, s.counts b = some cnt → cnt = (out.count b : Int) ∧ cnt ≤ (maxC : Int)) ∧
  (∀ b, (s.counts b ≠ none ∨ b ∈ s.queue ∨ b ∈ s.browsers ∨ b ∈ out) → b < s.nextId)

def PoolInv (maxB maxC : Nat) (c : PoolState × List Nat) : Prop :=
  PoolInvCore maxB maxC c.1 c.2 ∧ (c.1.isInit = false → c.1.browsers = [])

/- ### Invariant preservation lemmas for the pool -/

theorem countsSet_self (c : Nat → Option Int) (k : Nat) (v : Int) :
    countsSet c k v k = some v := by
  simp [countsSet]

theorem countsSet_other (c : Nat → Option Int) (k : Nat) (v : Int) {x : Nat}
    (h : x ≠ k) : countsSet c k v x = c x := by
  simp [countsSet, h]

theorem countsDel_self (c : Nat → Option Int) (k : Nat) : countsDel c k k = none := by
  simp [countsDel]

theorem countsDel_other (c : Nat → Option Int) (k : Nat) {x : Nat} (h : x ≠ k) :
    countsDel c k x = c x := by
  simp [countsDel, h]

theorem initPool_core (maxB maxC : Nat) (hB : 1 ≤ maxB) (s : PoolState) (out : List Nat)
    (hinv : PoolInvCore maxB maxC s out) (hE : s.isInit = false → s.browsers = []) :
    PoolInvCore maxB maxC (initPool s) out ∧ (initPool s).isInit = true := by
  obtain ⟨h1, h2, h3⟩ := hinv
  cases hI : s.isInit with
  | true =>
    have heq : initPool s = s := by simp [initPool, hI]
    rw [heq]
    exact ⟨⟨h1, h2, h3⟩, hI⟩
  | false =>
    have hb : s.browsers = [] := hE hI
    have hfresh : s.nextId ∉ out :=
      fun hm => absurd (h3 _ (Or.inr (Or.inr (Or.inr hm)))) (lt_irrefl _)
    have heq : initPool s =
        { s with browsers := s.browsers ++ [s.nextId]
                 counts := countsSet s.counts s.nextId 0
                 queue := s.queue ++ [s.nextId]
                 isInit := true
                 nextId := s.nextId + 1 } := by
      simp [initPool, hI]
    rw [heq]
    refine ⟨⟨?_, ?_, ?_⟩, rfl⟩
    · dsimp only
      simpa [hb] using hB
    · intro b cnt hc
      dsimp only at hc
      by_cases hbb : b = s.nextId
      · subst hbb
        rw [countsSet_self, Option.some.injEq] at hc
        subst hc
        constructor
        · rw [List.count_eq_zero.mpr hfresh]; simp
        · positivity
      · rw [countsSet_other _ _ _ hbb] at hc
        exact h2 b cnt hc
    · intro b hd
      dsimp only at hd ⊢
      by_cases hbb : b = s.nextId
      · omega
      · have hlt : b < s.nextId := by
          apply h3
          rcases hd with hd | hd | hd | hd
          · rw [countsSet_other _ _ _ hbb] at hd; exact Or.inl hd
          · rcases List.mem_append.mp hd with hd | hd
            · exact Or.inr (Or.inl hd)
            · simp at hd; omega
          · rw [hb] at hd
            rcases List.mem_append.mp hd with hd | hd
            · simp at hd
            · simp at hd; omega
          · exact Or.inr (Or.inr (Or.inr hd))
        omega

/-- Property of a `_get_available_browser` outcome: the invariant still
holds, the init flag is untouched, and a handed-out browser either has no
counts entry or a count strictly under capacity. -/
def GetProp (maxB maxC : Nat) (out : List Nat) : GetResult → Prop
  | .ok s b => PoolInvCore maxB maxC s out ∧ s.isInit = true ∧
      ∀ cnt, s.counts b = some cnt → cnt < (maxC : Int)
  | .poolClosed s => PoolInvCore maxB maxC s out ∧ s.isInit = true
  | .outOfFuel s => PoolInvCore maxB maxC s out ∧ s.isInit = true

theorem getAvail_inv (maxB maxC : Nat) (hC : 1 ≤ maxC) (conn : Nat → Bool) :
    ∀ (fuel : Nat) (s : PoolState) (out : List Nat),
      PoolInvCore maxB maxC s out → s.isInit = true →
      GetProp maxB maxC out (getAvailableBrowser maxB maxC conn fuel s) := by
  intro fuel
  induction fuel with
  | zero =>
    intro s out hinv hI
    cases hsd : s.isShutdown <;> simp [getAvailableBrowser, hsd, GetProp, hinv, hI]
  | succ f ih =>
    intro s out hinv hI
    obtain ⟨h1, h2, h3⟩ := hinv
    cases hsd : s.isShutdown with
    | true =>
      simp only [getAvailableBrowser, hsd, if_true, GetProp]
      exact ⟨⟨h1, h2, h3⟩, hI⟩
    | false =>
      cases hq : s.queue with
      | cons b rest =>
        have hqm : ∀ x, x ∈ b :: rest → x ∈ s.queue := by
          rw [hq]; exact fun x h => h
        have hbq : b < s.nextId := h3 b (Or.inr (Or.inl (hqm b (List.mem_cons_self b rest))))
        cases hcb : conn b with
        | false =>
          have hstep : getAvailableBrowser maxB maxC conn (f + 1) s =
              getAvailableBrowser maxB maxC conn f
                { s with queue := rest, browsers := s.browsers.erase b
                         counts := countsDel s.counts b } := by
            simp [getAvailableBrowser, hsd, hq, hcb]
          rw [hstep]
          refine ih _ out ⟨?_, ?_, ?_⟩ hI
          · dsimp only
            exact le_trans (List.erase_sublist b s.browsers).length_le h1
          · intro b' cnt hc
            dsimp only at hc
            by_cases hbb : b' = b
            · subst hbb; rw [countsDel_self] at hc; exact absurd hc (by simp)
            · rw [countsDel_other _ _ hbb] at hc; exact h2 b' cnt hc
          · intro b' hd
            dsimp only at hd ⊢
            apply h3
            rcases hd with hd | hd | hd | hd
            · by_cases hbb : b' = b
              · subst hbb; rw [countsDel_self] at hd; exact absurd rfl hd
              · rw [countsDel_other _ _ hbb] at hd; exact Or.inl hd
            · exact Or.inr (Or.inl (hqm _ (List.mem_cons_of_mem b hd)))
            · exact Or.inr (Or.inr (Or.inl (List.mem_of_mem_erase hd)))
            · exact Or.inr (Or.inr (Or.inr hd))
        | true =>
          by_cases hlt : (s.counts b).getD 0 < (maxC : Int)
          · have hstep : getAvailableBrowser maxB maxC conn (f + 1) s =
                .ok { s with queue := rest } b := by
              simp [getAvailableBrowser, hsd, hq, hcb, hlt]
            rw [hstep]
            refine ⟨⟨h1, h2, ?_⟩, hI, ?_⟩
            · intro b' hd
              dsimp only at hd ⊢
              apply h3
              rcases hd with hd | hd | hd | hd
              · exact Or.inl hd
              · exact Or.inr (Or.inl (hqm _ (List.mem_cons_of_mem b hd)))
              · exact Or.inr (Or.inr (Or.inl hd))
              · exact Or.inr (Or.inr (Or.inr hd))
            · intro cnt hc
              dsimp only at hc
              rw [hc] at hlt
              simpa using hlt
          · have hstep : getAvailableBrowser maxB maxC conn (f + 1) s =
                getAvailableBrowser maxB maxC conn f { s with queue := rest ++ [b] } := by
              simp [getAvailableBrowser, hsd, hq, hcb, hlt]
            rw [hstep]
            refine ih _ out ⟨h1, h2, ?_⟩ hI
            intro b' hd
            dsimp only at hd ⊢
            apply h3
            rcases hd with hd | hd | hd | hd
            · exact Or.inl hd
            · rcases List.mem_append.mp hd with hd | hd
              · exact Or.inr (Or.inl (hqm _ (List.mem_cons_of_mem b hd)))
              · have hb2 : b' = b := by simpa using hd
                rw [hb2]
                exact Or.inr (Or.inl (hqm _ (List.mem_cons_self b rest)))
            · exact Or.inr (Or.inr (Or.inl hd))
            · exact Or.inr (Or.inr (Or.inr hd))
      | nil =>
        by_cases hlen : s.browsers.length < maxB
        · have hstep : getAvailableBrowser maxB maxC conn (f + 1) s =
              .ok { s with browsers := s.browsers ++ [s.nextId]
                           counts := countsSet s.counts s.nextId 0
                           nextId := s.nextId + 1 } s.nextId := by
            simp [getAvailableBrowser, hsd, hq, hlen]
          rw [hstep]
          have hfresh : s.nextId ∉ out :=
            fun hm => absurd (h3 _ (Or.inr (Or.inr (Or.inr hm)))) (lt_irrefl _)
          refine ⟨⟨?_, ?_, ?_⟩, hI, ?_⟩
          · dsimp only
            rw [List.length_append]
            simp only [List.length_singleton]
            omega
          · intro b' cnt hc
            dsimp only at hc
            by_cases hbb : b' = s.nextId
            · subst hbb
              rw [countsSet_self, Option.some.injEq] at hc
              subst hc
              constructor
              · rw [List.count_eq_zero.mpr hfresh]; simp
              · positivity
            · rw [countsSet_other _ _ _ hbb] at hc; exact h2 b' cnt hc
          · intro b' hd
            dsimp only at hd ⊢
            by_cases hbb : b' = s.nextId
            · omega
            · have hlt2 : b' < s.nextId := by
                apply h3
                rcases hd with hd | hd | hd | hd
                · rw [countsSet_other _ _ _ hbb] at hd; exact Or.inl hd
                · rw [hq] at hd; simp at hd
                · rcases List.mem_append.mp hd with hd | hd
                  · exact Or.inr (Or.inr (Or.inl hd))
                  · simp at hd; omega
                · exact Or.inr (Or.inr (Or.inr hd))
              omega
          · intro cnt hc
            dsimp only at hc
            rw [countsSet_self, Option.some.injEq] at hc
            subst hc
            omega
        · have hstep : getAvailableBrowser maxB maxC conn (f + 1) s =
              getAvailableBrowser maxB maxC conn f s := by
            simp [getAvailableBrowser, hsd, hq, hlen]
          rw [hstep]
          exact ih s out ⟨h1, h2, h3⟩ hI

theorem initTrue_emp {s : PoolState} (h : s.isInit = true) :
    s.isInit = false → s.browsers = [] := by
  intro hf
  rw [h] at hf
  cases hf

theorem acquire_inv (maxB maxC : Nat) (hB : 1 ≤ maxB) (hC : 1 ≤ maxC)
    (conn : Nat → Bool) (fuel : Nat) (s : PoolState) (out : List Nat)
    (hinv : PoolInv maxB maxC (s, out)) :
    PoolInv maxB maxC (stepOp maxB maxC (s, out) (.acquire conn fuel)) := by
  obtain ⟨hcore, hemp⟩ := hinv
  have h0 : PoolInvCore maxB maxC (if s.isInit then s else initPool s) out ∧
      (if s.isInit then s else initPool s).isInit = true := by
    by_cases hI : s.isInit = true
    · rw [if_pos hI]; exact ⟨hcore, hI⟩
    · rw [if_neg hI]
      exact initPool_core maxB maxC hB s out hcore (fun _ => hemp (by simpa using hI))
  have hget := getAvail_inv maxB maxC hC conn fuel _ out h0.1 h0.2
  cases hres : getAvailableBrowser maxB maxC conn fuel (if s.isInit then s else initPool s) with
  | poolClosed s1 =>
    rw [hres] at hget
    have hstep : stepOp maxB maxC (s, out) (.acquire conn fuel) = (s1, out) := by
      simp [stepOp, acquireContext, hres]
    rw [hstep]
    exact ⟨hget.1, initTrue_emp hget.2⟩
  | outOfFuel s1 =>
    rw [hres] at hget
    have hstep : stepOp maxB maxC (s, out) (.acquire conn fuel) = (s1, out) := by
      simp [stepOp, acquireContext, hres]
    rw [hstep]
    exact ⟨hget.1, initTrue_emp hget.2⟩
  | ok s1 b =>
    rw [hres] at hget
    obtain ⟨⟨g1, g2, g3⟩, gI, gbound⟩ := hget
    cases hcnt : s1.counts b with
    | none =>
      have hstep : stepOp maxB maxC (s, out) (.acquire conn fuel) = (s1, out) := by
        simp [stepOp, acquireContext, hres, hcnt]
      rw [hstep]
      exact ⟨⟨g1, g2, g3⟩, initTrue_emp gI⟩
    | some c =>
      have hcc := g2 b c hcnt
      have hclt : c < (maxC : Int) := gbound c hcnt
      have hstep : stepOp maxB maxC (s, out) (.acquire conn fuel) =
          ({ s1 with counts := countsSet s1.counts b (c + 1) }, b :: out) := by
        simp [stepOp, acquireContext, hres, hcnt]
      rw [hstep]
      refine ⟨⟨?_, ?_, ?_⟩, initTrue_emp gI⟩
      · exact g1
      · intro b' cnt hc
        dsimp only at hc
        by_cases hbb : b' = b
        · subst hbb
          rw [countsSet_self, Option.some.injEq] at hc
          subst hc
          constructor
          · rw [List.count_cons_self]
            push_cast
            omega
          · omega
        · rw [countsSet_other _ _ _ hbb] at hc
          have := g2 b' cnt hc
          rw [List.count_cons_of_ne hbb]
          exact this
      · intro b' hd
        dsimp only at hd ⊢
        apply g3
        rcases hd with hd | hd | hd | hd
        · by_cases hbb : b' = b
          · subst hbb; exact Or.inl (by simp [hcnt])
          · rw [countsSet_other _ _ _ hbb] at hd; exact Or.inl hd
        · exact Or.inr (Or.inl hd)
        · exact Or.inr (Or.inr (Or.inl hd))
        · rcases List.mem_cons.mp hd with hd | hd
          · subst hd; exact Or.inl (by simp [hcnt])
          · exact Or.inr (Or.inr (Or.inr hd))

theorem release_inv (maxB maxC : Nat) (b : Nat) (s : PoolState) (out : List Nat)
    (hinv : PoolInv maxB maxC (s, out)) :
    PoolInv maxB maxC (stepOp maxB maxC (s, out) (.release b)) := by
  obtain ⟨⟨h1, h2, h3⟩, hemp⟩ := hinv
  dsimp only at h1 h2 h3 hemp
  by_cases hmem : b ∈ out
  · have hcpos : 1 ≤ out.count b := List.one_le_count_iff.mpr hmem
    have herase : ∀ b' : Nat, b' ≠ b → (out.erase b).count b' = out.count b' :=
      fun b' hne => List.count_erase_of_ne hne out
    cases hcnt : s.counts b with
    | none =>
      have hstep : stepOp maxB maxC (s, out) (.release b) = (s, out.erase b) := by
        simp [stepOp, hmem, releaseContext, hcnt]
      rw [hstep]
      refine ⟨⟨h1, ?_, ?_⟩, hemp⟩
      · intro b' cnt hc
        by_cases hbb : b' = b
        · subst hbb; rw [hcnt] at hc; exact absurd hc (by simp)
        · rw [herase b' hbb]; exact h2 b' cnt hc
      · intro b' hd
        apply h3
        rcases hd with hd | hd | hd | hd
        · exact Or.inl hd
        · exact Or.inr (Or.inl hd)
        · exact Or.inr (Or.inr (Or.inl hd))
        · exact Or.inr (Or.inr (Or.inr (List.mem_of_mem_erase hd)))
    | some c =>
      have hcc := h2 b c hcnt
      have hbfresh : b < s.nextId := h3 b (Or.inl (by simp [hcnt]))
      have hmain : ∀ t : PoolState,
          t.counts = countsSet s.counts b (c - 1) → t.browsers = s.browsers →
          t.isInit = s.isInit → t.nextId = s.nextId →
          (∀ b', b' ∈ t.queue → b' ∈ s.queue ∨ b' = b) →
          PoolInv maxB maxC (t, out.erase b) := by
        intro t htc htb hti htn htq
        refine ⟨⟨?_, ?_, ?_⟩, ?_⟩
        · rw [htb]; exact h1
        · intro b' cnt hc
          rw [htc] at hc
          by_cases hbb : b' = b
          · rw [hbb] at hc ⊢
            rw [countsSet_self, Option.some.injEq] at hc
            rw [List.count_erase_self]
            have hceq : c = (out.count b : Int) := hcc.1
            have hle : c ≤ (maxC : Int) := hcc.2
            constructor
            · omega
            · omega
          · rw [countsSet_other _ _ _ hbb] at hc
            rw [herase b' hbb]
            exact h2 b' cnt hc
        · intro b' hd
          rw [htn]
          rcases hd with hd | hd | hd | hd
          · rw [htc] at hd
            by_cases hbb : b' = b
            · rw [hbb]; exact hbfresh
            · rw [countsSet_other _ _ _ hbb] at hd
              exact h3 b' (Or.inl hd)
          · rcases htq b' hd with hd | hd
            · exact h3 b' (Or.inr (Or.inl hd))
            · rw [hd]; exact hbfresh
          · rw [htb] at hd
            exact h3 b' (Or.inr (Or.inr (Or.inl hd)))
          · exact h3 b' (Or.inr (Or.inr (Or.inr (List.mem_of_mem_erase hd))))
        · intro hf
          rw [htb]
          exact hemp (hti ▸ hf)
      by_cases hreq : c - 1 < (maxC : Int)
      · have hstep : stepOp maxB maxC (s, out) (.release b) =
            ({ s with counts := countsSet s.counts b (c - 1), queue := s.queue ++ [b] },
             out.erase b) := by
          simp [stepOp, hmem, releaseContext, hcnt, hreq]
        rw [hstep]
        apply hmain <;> try rfl
        intro b' hd
        dsimp only at hd
        rcases List.mem_append.mp hd with hd | hd
        · exact Or.inl hd
        · right; simpa using hd
      · have hstep : stepOp maxB maxC (s, out) (.release b) =
            ({ s with counts := countsSet s.counts b (c - 1) }, out.erase b) := by
          simp [stepOp, hmem, releaseContext, hcnt, hreq]
        rw [hstep]
        apply hmain <;> try rfl
        intro b' hd
        exact Or.inl hd
  · have hstep : stepOp maxB maxC (s, out) (.release b) = (s, out) := by
      simp [stepOp, hmem]
    rw [hstep]
    exact ⟨⟨h1, h2, h3⟩, hemp⟩


theorem stepOp_inv (maxB maxC : Nat) (hB : 1 ≤ maxB) (hC : 1 ≤ maxC)
    (c : PoolState × List Nat) (op : PoolOp) (hinv : PoolInv maxB maxC c) :
    PoolInv maxB maxC (stepOp maxB maxC c op) := by
  obtain ⟨s, out⟩ := c
  cases op with
  | init =>
    have h := initPool_core maxB maxC hB s out hinv.1 hinv.2
    exact ⟨h.1, fun hf => absurd (hf ▸ h.2) (by simp)⟩
  | acquire conn fuel => exact acquire_inv maxB maxC hB hC conn fuel s out hinv
  | release b => exact release_inv maxB maxC b s out hinv

theorem runOps_inv (maxB maxC : Nat) (hB : 1 ≤ maxB) (hC : 1 ≤ maxC) :
    ∀ (ops : List PoolOp) (c : PoolState × List Nat),
      PoolInv maxB maxC c → PoolInv maxB maxC (runOps maxB maxC ops c) := by
  intro ops
  induction ops with
  | nil => intro c h; exact h
  | cons op ops ih =>
    intro c h
    exact ih _ (stepOp_inv maxB maxC hB hC c op h)

theorem emptyPool_inv (maxB maxC : Nat) : PoolInv maxB maxC (emptyPool, []) := by
  refine ⟨⟨?_, ?_, ?_⟩, ?_⟩ <;> simp [emptyPool]

/- ### Retry-loop lemmas -/

theorem retryLoop_calls_le {ε α : Type} (maxR : Nat) (retryable : ε → Bool)
    (op : Nat → Except ε α) :
    ∀ (fuel attempt : Nat), attempt + fuel = maxR + 2 →
      (retryLoop maxR retryable op attempt fuel).calls ≤ maxR + 1 := by
  intro fuel
  induction fuel with
  | zero =>
    intro attempt h
    simp only [retryLoop, RetryOutcome.calls]
    omega
  | succ f ih =>
    intro attempt h
    cases hop : op attempt with
    | ok a =>
      simp only [retryLoop, hop, RetryOutcome.calls]
      omega
    | error e =>
      cases hr : retryable e with
      | true =>
        by_cases hm : maxR < attempt
        · simp only [retryLoop, hop, hr, if_true, if_pos hm, RetryOutcome.calls]
          omega
        · simp only [retryLoop, hop, hr, if_true, if_neg hm]
          exact ih (attempt + 1) (by omega)
      | false =>
        simp [retryLoop, hop, hr, RetryOutcome.calls]
        omega

theorem retryLoop_all_fail {ε α : Type} (maxR : Nat) (retryable : ε → Bool)
    (op : Nat → Except ε α) (f : Nat → ε)
    (hall : ∀ k, 1 ≤ k → k ≤ maxR + 1 → op k = .error (f k) ∧ retryable (f k) = true) :
    ∀ (fuel attempt : Nat), attempt + fuel = maxR + 2 → 1 ≤ attempt →
      attempt ≤ maxR + 1 →
      retryLoop maxR retryable op attempt fuel = .err (f (maxR + 1)) (maxR + 1) := by
  intro fuel
  induction fuel with
  | zero =>
    intro attempt h h1 h2
    omega
  | succ fu ih =>
    intro attempt h h1 h2
    obtain ⟨hop, hr⟩ := hall attempt h1 h2
    by_cases hm : maxR < attempt
    · have ha : attempt = maxR + 1 := by omega
      subst ha
      simp [retryLoop, hop, hr, hm]
    · simp only [retryLoop, hop, hr, if_true, if_neg hm]
      exact ih (attempt + 1) (by omega) (by omega) (by omega)

/- ### Circuit-breaker run lemmas -/

theorem cb_fail_step (cfg : CBConfig) {ε : Type} (isExp : ε → Bool) (e : ε)
    (he : isExp e = true) (j : Nat) (lt : Option ℚ) (t : ℚ) :
    (CBcall cfg t (some e) isExp ⟨j, lt, .closed⟩).2.1 =
      (⟨j + 1, some t,
        if cfg.failure_threshold ≤ j + 1 then .opened else .closed⟩ : CBState) := by
  by_cases hth : cfg.failure_threshold ≤ j + 1
  · simp [CBcall, readState, onFailure, he, hth]
  · simp [CBcall, readState, onFailure, he, hth]

theorem applyFail_run (cfg : CBConfig) {ε : Type} (isExp : ε → Bool) (e : ε)
    (he : isExp e = true) :
    ∀ (ts : List ℚ) (tl : ℚ) (j : Nat) (lt : Option ℚ),
      ts.getLast? = some tl → j + ts.length ≤ cfg.failure_threshold →
      applyFailCalls cfg isExp e ts ⟨j, lt, .closed⟩ =
        ⟨j + ts.length, some tl,
          if j + ts.length = cfg.failure_threshold then .opened else .closed⟩ := by
  intro ts
  induction ts with
  | nil =>
    intro tl j lt hlast _
    exact absurd hlast (by simp)
  | cons t ts ih =>
    intro tl j lt hlast hle
    have hfold : applyFailCalls cfg isExp e (t :: ts) ⟨j, lt, .closed⟩ =
        applyFailCalls cfg isExp e ts ((CBcall cfg t (some e) isExp ⟨j, lt, .closed⟩).2.1) := rfl
    rw [hfold, cb_fail_step cfg isExp e he j lt t]
    cases ts with
    | nil =>
      have htl : t = tl := by simpa using hlast
      subst htl
      have hlen : j + [t].length = j + 1 := by simp
      rw [hlen]
      simp only [applyFailCalls, List.foldl_nil]
      by_cases heq : j + 1 = cfg.failure_threshold
      · rw [if_pos heq, if_pos (le_of_eq heq.symm)]
      · have hlt : ¬ cfg.failure_threshold ≤ j + 1 := by
          simp only [List.length_cons, List.length_nil] at hle
          omega
        rw [if_neg heq, if_neg hlt]
    | cons t2 ts2 =>
      have hnth : ¬ cfg.failure_threshold ≤ j + 1 := by
        simp only [List.length_cons] at hle
        omega
      rw [if_neg hnth]
      have hlast2 : (t2 :: ts2).getLast? = some tl := by
        rw [List.getLast?_cons_cons] at hlast
        exact hlast
      have hle2 : (j + 1) + (t2 :: ts2).length ≤ cfg.failure_threshold := by
        simp only [List.length_cons] at hle ⊢
        omega
      rw [ih tl (j + 1) (some t) hlast2 hle2]
      have harith : j + 1 + (t2 :: ts2).length = j + (t :: t2 :: ts2).length := by
        simp only [List.length_cons]
        omega
      rw [harith]

theorem readState_frame (cfg : CBConfig) (now : ℚ) (s : CBState) :
    (readState cfg now s).2.failure_count = s.failure_count ∧
    (readState cfg now s).2.last_failure_time = s.last_failure_time := by
  by_cases h1 : s.status = .opened
  · cases hl : s.last_failure_time with
    | none => simp [readState, h1, hl]
    | some t =>
      by_cases ht : t = 0
      · simp [readState, h1, hl, ht]
      · by_cases h2 : cfg.recovery_timeout < now - t
        · simp [readState, h1, hl, ht, h2]
        · simp [readState, h1, hl, ht, h2]
  · simp [readState, h1]

/- ### Claim theorems -/

/-- C1: for every sequence of initialize, scoped acquisition and release
operations on a pool configured with max_browsers ≥ 1 and
max_contexts_per_browser ≥ 1, the resulting state at every externally
observable point (the end of an arbitrary trace prefix) has at most
max_browsers tracked browsers, and every tracked browser's context count
lies between 0 and max_contexts_per_browser. -/
theorem pool_capacity_inv (maxB maxC : Nat) (hB : 1 ≤ maxB) (hC : 1 ≤ maxC)
    (ops : List PoolOp) :
    (runPool maxB maxC ops).1.browsers.length ≤ maxB ∧
    ∀ b cnt, (runPool maxB maxC ops).1.counts b = some cnt →
      0 ≤ cnt ∧ cnt ≤ (maxC : Int) := by
  have h := runOps_inv maxB maxC hB hC ops (emptyPool, []) (emptyPool_inv maxB maxC)
  obtain ⟨⟨h1, h2, _⟩, _⟩ := h
  refine ⟨h1, ?_⟩
  intro b cnt hc
  have hcc := h2 b cnt hc
  have h0 : cnt = ((runPool maxB maxC ops).2.count b : Int) := hcc.1
  exact ⟨by omega, hcc.2⟩

theorem pool_capacity_inv_witness :
    (runPool 1 1 [PoolOp.init, PoolOp.acquire (fun _ => true) 3,
        PoolOp.release 0]).1.browsers.length ≤ 1 ∧
    ∀ b cnt, (runPool 1 1 [PoolOp.init, PoolOp.acquire (fun _ => true) 3,
        PoolOp.release 0]).1.counts b = some cnt → 0 ≤ cnt ∧ cnt ≤ (1 : Int) :=
  pool_capacity_inv 1 1 (by decide) (by decide)
    [PoolOp.init, PoolOp.acquire (fun _ => true) 3, PoolOp.release 0]

/-- C5: a retry-wrapped operation is invoked at most max_retries + 1 times
in total, and when every allowed attempt raises an exception in the
retryable set, the wrapper re-raises the exception of the final attempt
itself, unchanged and unwrapped. -/
theorem retry_spec (ε α : Type) (maxR : Nat) (retryable : ε → Bool)
    (op : Nat → Except ε α) :
    (retryRun maxR retryable op).calls ≤ maxR + 1 ∧
    (∀ f : Nat → ε,
      (∀ k, 1 ≤ k → k ≤ maxR + 1 → op k = .error (f k) ∧ retryable (f k) = true) →
      retryRun maxR retryable op = .err (f (maxR + 1)) (maxR + 1)) := by
  constructor
  · exact retryLoop_calls_le maxR retryable op (maxR + 1) 1 (by omega)
  · intro f hall
    exact retryLoop_all_fail maxR retryable op f hall (maxR + 1) 1 (by omega)
      (by omega) (by omega)

theorem retry_spec_witness :
    retryRun 1 (fun _ : Nat => true) (fun _ : Nat => (Except.error 7 : Except Nat Nat)) =
      RetryOutcome.err 7 2 :=
  (retry_spec Nat Nat 1 (fun _ => true) (fun _ => Except.error 7)).2 (fun _ => 7)
    (fun _ _ _ => ⟨rfl, rfl⟩)

/-- C6: once the shutdown flag is set, every acquisition attempt fails with
the pool-closed condition (the RuntimeError of pool.py line 150) instead of
looping forever or returning a (browser, context) pair; the only state
change is the reinitialization that `acquire_context` performs first when
the init flag had been cleared. -/
theorem acquire_after_shutdown (maxB maxC : Nat) (conn : Nat → Bool) (fuel : Nat)
    (s : PoolState) (h : s.isShutdown = true) :
    acquireContext maxB maxC conn fuel s =
      .poolClosed (if s.isInit then s else initPool s) := by
  have hs0 : (if s.isInit then s else initPool s).isShutdown = true := by
    by_cases hI : s.isInit = true
    · rw [if_pos hI]; exact h
    · rw [if_neg hI]
      have hpre : (initPool s).isShutdown = s.isShutdown := by
        simp only [initPool]
        split <;> rfl
      rw [hpre]; exact h
  have hget : getAvailableBrowser maxB maxC conn fuel (if s.isInit then s else initPool s) =
      .poolClosed (if s.isInit then s else initPool s) := by
    cases fuel <;> simp [getAvailableBrowser, hs0]
  simp [acquireContext, hget]

theorem acquire_after_shutdown_witness :
    acquireContext 1 1 (fun _ => true) 2 { emptyPool with isShutdown := true } =
      .poolClosed (initPool { emptyPool with isShutdown := true }) := by
  have h := acquire_after_shutdown 1 1 (fun _ => true) 2
    { emptyPool with isShutdown := true } rfl
  simpa using h

/-- C7: `shutdown` attempts a close on every tracked browser even when some
of the closes raise (the gather uses return_exceptions=True, so no failing
close prevents the others), afterwards clears the tracked set and the
counts dict and resets the init flag, and is idempotent: a second
`shutdown` leaves the pool state unchanged and closes nothing. -/
theorem shutdown_closes_all (closeFails closeFails2 : Nat → Bool) (s : PoolState) :
    ((shutdownPool closeFails s).2.map Prod.fst = s.browsers) ∧
    (shutdownPool closeFails s).1.browsers = [] ∧
    (shutdownPool closeFails s).1.counts = (fun _ => none) ∧
    (shutdownPool closeFails s).1.isInit = false ∧
    (shutdownPool closeFails s).1.isShutdown = true ∧
    shutdownPool closeFails2 (shutdownPool closeFails s).1 =
      ((shutdownPool closeFails s).1, []) := by
  refine ⟨?_, rfl, rfl, rfl, rfl, rfl⟩
  show (s.browsers.map fun b => (b, !closeFails b)).map Prod.fst = s.browsers
  induction s.browsers with
  | nil => rfl
  | cons x xs ih => simp only [List.map_cons]; simp [ih]

/-- C2: starting from a fresh breaker, failure_threshold consecutive
failures of the expected exception type drive the state to open, and while
recovery_timeout has not yet elapsed since the last failure every
call/async_call is rejected with the circuit-open RuntimeError immediately,
without invoking the guarded operation and without changing the state. -/
theorem cb_open_rejects (cfg : CBConfig) (ε : Type) (isExp : ε → Bool) (e : ε)
    (he : isExp e = true) (hth : 1 ≤ cfg.failure_threshold)
    (ts : List ℚ) (hlen : ts.length = cfg.failure_threshold)
    (tl : ℚ) (hlast : ts.getLast? = some tl)
    (now : ℚ) (hnow : now - tl ≤ cfg.recovery_timeout)
    (outcome : Option ε) :
    (applyFailCalls cfg isExp e ts cbInit).status = .opened ∧
    CBcall cfg now outcome isExp (applyFailCalls cfg isExp e ts cbInit) =
      (.circuitOpen, applyFailCalls cfg isExp e ts cbInit, false) := by
  have hrun := applyFail_run cfg isExp e he ts tl 0 none hlast (by omega)
  have hcond : 0 + ts.length = cfg.failure_threshold := by omega
  have hcb : cbInit = (⟨0, none, CBStatus.closed⟩ : CBState) := rfl
  rw [hcb, hrun, if_pos hcond]
  have hng : ¬ (cfg.recovery_timeout < now - tl) := not_lt.mpr hnow
  constructor
  · rfl
  · by_cases htl : tl = 0
    · simp [CBcall, readState, htl]
    · simp [CBcall, readState, htl, hng]

theorem cb_open_rejects_witness :
    (applyFailCalls ⟨1, 60⟩ (fun _ : Nat => true) 0 [0] cbInit).status =
      CBStatus.opened ∧
    CBcall ⟨1, 60⟩ 30 none (fun _ : Nat => true)
        (applyFailCalls ⟨1, 60⟩ (fun _ : Nat => true) 0 [0] cbInit) =
      (CallResult.circuitOpen,
       applyFailCalls ⟨1, 60⟩ (fun _ : Nat => true) 0 [0] cbInit, false) :=
  cb_open_rejects ⟨1, 60⟩ Nat (fun _ => true) 0 rfl (le_refl 1) [0] rfl 0 rfl
    30 (by norm_num) none

/-- C3 (amended): for every attempt k ≥ 1 and every configuration, the
delay with jitter disabled is exactly min(initial_delay * base^(k-1),
max_delay) — in particular 1, 2, 4, 8 on attempts 1..4 for initial_delay 1,
base 2, max_delay 60 — and with jitter enabled, provided the configured
initial_delay, exponential_base and max_delay are non-negative, the
returned delay lies in [base_delay, base_delay * 1.25] for every random
draw r ∈ [0, 1). -/
theorem calc_delay_spec (cfg : RetryConfig) (k : Nat) (hk : 1 ≤ k) (r : ℚ)
    (hr0 : 0 ≤ r) (hr1 : r < 1) (hd : 0 ≤ cfg.initial_delay)
    (hb : 0 ≤ cfg.exponential_base) (hm : 0 ≤ cfg.max_delay) :
    (cfg.jitter = false →
      calculate_delay cfg k r =
        min (cfg.initial_delay * cfg.exponential_base ^ (k - 1)) cfg.max_delay) ∧
    (cfg.jitter = true →
      min (cfg.initial_delay * cfg.exponential_base ^ (k - 1)) cfg.max_delay ≤
        calculate_delay cfg k r ∧
      calculate_delay cfg k r ≤
        min (cfg.initial_delay * cfg.exponential_base ^ (k - 1)) cfg.max_delay * (5/4)) ∧
    (calculate_delay { defaultRetryConfig with jitter := false } 1 0 = 1 ∧
     calculate_delay { defaultRetryConfig with jitter := false } 2 0 = 2 ∧
     calculate_delay { defaultRetryConfig with jitter := false } 3 0 = 4 ∧
     calculate_delay { defaultRetryConfig with jitter := false } 4 0 = 8) := by
  have hbase : 0 ≤ min (cfg.initial_delay * cfg.exponential_base ^ (k - 1)) cfg.max_delay :=
    le_min (mul_nonneg hd (pow_nonneg hb _)) hm
  refine ⟨?_, ?_, ?_, ?_, ?_, ?_⟩
  · intro hj
    simp [calculate_delay, hj]
  · intro hj
    have hcalc : calculate_delay cfg k r =
        min (cfg.initial_delay * cfg.exponential_base ^ (k - 1)) cfg.max_delay +
        min (cfg.initial_delay * cfg.exponential_base ^ (k - 1)) cfg.max_delay * (1/4) * r := by
      simp [calculate_delay, hj]
    rw [hcalc]
    have hDr : 0 ≤ min (cfg.initial_delay * cfg.exponential_base ^ (k - 1)) cfg.max_delay * r :=
      mul_nonneg hbase hr0
    have key : 0 ≤ min (cfg.initial_delay * cfg.exponential_base ^ (k - 1)) cfg.max_delay *
        (1/4) * (1 - r) :=
      mul_nonneg (mul_nonneg hbase (by norm_num)) (by linarith)
    constructor
    · nlinarith [hDr]
    · nlinarith [key]
  · norm_num [calculate_delay, defaultRetryConfig, min_def]
  · norm_num [calculate_delay, defaultRetryConfig, min_def]
  · norm_num [calculate_delay, defaultRetryConfig, min_def]
  · norm_num [calculate_delay, defaultRetryConfig, min_def]

theorem calc_delay_spec_witness :
    (defaultRetryConfig.jitter = false →
      calculate_delay defaultRetryConfig 1 0 =
        min (defaultRetryConfig.initial_delay *
            defaultRetryConfig.exponential_base ^ (1 - 1 : Nat))
          defaultRetryConfig.max_delay) ∧
    (defaultRetryConfig.jitter = true →
      min (defaultRetryConfig.initial_delay *
          defaultRetryConfig.exponential_base ^ (1 - 1 : Nat))
        defaultRetryConfig.max_delay ≤ calculate_delay defaultRetryConfig 1 0 ∧
      calculate_delay defaultRetryConfig 1 0 ≤
        min (defaultRetryConfig.initial_delay *
            defaultRetryConfig.exponential_base ^ (1 - 1 : Nat))
          defaultRetryConfig.max_delay * (5/4)) ∧
    (calculate_delay { defaultRetryConfig with jitter := false } 1 0 = 1 ∧
     calculate_delay { defaultRetryConfig with jitter := false } 2 0 = 2 ∧
     calculate_delay { defaultRetryConfig with jitter := false } 3 0 = 4 ∧
     calculate_delay { defaultRetryConfig with jitter := false } 4 0 = 8) :=
  calc_delay_spec defaultRetryConfig 1 (le_refl 1) 0 (le_refl 0) zero_lt_one
    zero_le_one zero_le_two (by norm_num [defaultRetryConfig])

/-- C3 counterexample: the claim quantifies over every retry
configuration, but for initial_delay = -1 (representable in the config)
the jittered delay at attempt 1 with random draw 1/2 lies outside
[base_delay, base_delay * 1.25]. -/
theorem calc_delay_jitter_cex :
    ¬ (min ((-1 : ℚ) * (2 : ℚ) ^ (1 - 1 : Nat)) 60 ≤
        calculate_delay { defaultRetryConfig with initial_delay := -1 } 1 (1/2) ∧
       calculate_delay { defaultRetryConfig with initial_delay := -1 } 1 (1/2) ≤
        min ((-1 : ℚ) * (2 : ℚ) ^ (1 - 1 : Nat)) 60 * (5/4)) := by
  norm_num [calculate_delay, defaultRetryConfig, min_def]

/-- C4: a call made while a cached entry for the same page is younger than
cache_ttl returns the cached boolean without issuing a probe and without
changing the cache; once the entry is absent or at least cache_ttl old the
health is recomputed — a closed page is unhealthy and a probe exception or
timeout is unhealthy and not propagated — and the fresh (result, now) pair
is stored under the page's key before returning. -/
theorem health_cache_spec (ttl : ℚ) (cache : HealthCache) (now : ℚ) (p : PageModel) :
    (∀ h ts, cache p.id = some (h, ts) → now - ts < ttl →
      is_page_healthy ttl cache now (some p) = (h, cache, false)) ∧
    ((cache p.id = none ∨ ∃ h ts, cache p.id = some (h, ts) ∧ ttl ≤ now - ts) →
      (p.closed = true → (is_page_healthy ttl cache now (some p)).1 = false) ∧
      (p.probe = .raises → (is_page_healthy ttl cache now (some p)).1 = false) ∧
      (is_page_healthy ttl cache now (some p)).2.1 p.id =
        some ((is_page_healthy ttl cache now (some p)).1, now)) := by
  constructor
  · intro h ts hc hfresh
    simp [is_page_healthy, hc, hfresh]
  · intro hstale
    have hred : ∀ x : Bool × HealthCache × Bool,
        (p.closed = true → x = (false, cacheSet cache p.id (false, now), false)) →
        (p.closed = false → p.probe = .raises →
          x = (false, cacheSet cache p.id (false, now), true)) →
        (∀ v, p.closed = false → p.probe = .value v →
          x = (v == 2, cacheSet cache p.id (v == 2, now), true)) →
        is_page_healthy ttl cache now (some p) = x →
        (p.closed = true → (is_page_healthy ttl cache now (some p)).1 = false) ∧
        (p.probe = .raises → (is_page_healthy ttl cache now (some p)).1 = false) ∧
        (is_page_healthy ttl cache now (some p)).2.1 p.id =
          some ((is_page_healthy ttl cache now (some p)).1, now) := by
      intro x hcl hra hva heq
      rw [heq]
      cases hclosed : p.closed with
      | true =>
        rw [hcl hclosed]
        refine ⟨fun _ => rfl, fun _ => rfl, ?_⟩
        simp [cacheSet]
      | false =>
        cases hprobe : p.probe with
        | raises =>
          rw [hra hclosed hprobe]
          refine ⟨fun hcc => absurd hcc (by simp [hclosed]), fun _ => rfl, ?_⟩
          simp [cacheSet]
        | value v =>
          rw [hva v hclosed hprobe]
          refine ⟨fun hcc => absurd hcc (by simp [hclosed]),
                  fun hpp => absurd hpp (by simp [hprobe]), ?_⟩
          simp [cacheSet]
    rcases hstale with hn | ⟨h, ts, hc, hts⟩
    · refine hred (is_page_healthy ttl cache now (some p)) ?_ ?_ ?_ rfl
      · intro hcl; simp [is_page_healthy, hn, hcl]
      · intro hcl hpr; simp [is_page_healthy, hn, hcl, hpr]
      · intro v hcl hpr; simp [is_page_healthy, hn, hcl, hpr]
    · have hnl : ¬ (now - ts < ttl) := not_lt.mpr hts
      refine hred (is_page_healthy ttl cache now (some p)) ?_ ?_ ?_ rfl
      · intro hcl; simp [is_page_healthy, hc, hnl, hcl]
      · intro hcl hpr; simp [is_page_healthy, hc, hnl, hcl, hpr]
      · intro v hcl hpr; simp [is_page_healthy, hc, hnl, hcl, hpr]

theorem health_cache_spec_witness :
    is_page_healthy 2 (cacheSet emptyHealthCache 0 (true, 0)) 1
        (some ⟨0, false, ProbeOutcome.value 2⟩) =
      (true, cacheSet emptyHealthCache 0 (true, 0), false) :=
  (health_cache_spec 2 (cacheSet emptyHealthCache 0 (true, 0)) 1
      ⟨0, false, ProbeOutcome.value 2⟩).1 true 0 rfl (by norm_num)

/-- C8 (amended): the retry decorator factories leave the given config
object untouched exactly when no override keyword argument is supplied;
a supplied max_retries / initial_delay / exceptions override is written
into the config that every retry decision then reads, the remaining fields
are never modified, and retry_sync's factory behaves identically to
retry_async's. -/
theorem retry_factory_config (cfg : RetryConfig) (m : Option Nat) (d : Option ℚ)
    (ex : Option (List Nat)) :
    retry_async_factory (some cfg) none none none = cfg ∧
    retry_sync_factory (some cfg) none none none = cfg ∧
    (retry_async_factory (some cfg) m d ex).max_retries = m.getD cfg.max_retries ∧
    (retry_async_factory (some cfg) m d ex).initial_delay = d.getD cfg.initial_delay ∧
    (retry_async_factory (some cfg) m d ex).exceptions = ex.getD cfg.exceptions ∧
    (retry_async_factory (some cfg) m d ex).max_delay = cfg.max_delay ∧
    (retry_async_factory (some cfg) m d ex).exponential_base = cfg.exponential_base ∧
    (retry_async_factory (some cfg) m d ex).jitter = cfg.jitter ∧
    retry_sync_factory (some cfg) m d ex = retry_async_factory (some cfg) m d ex := by
  cases m <;> cases d <;> cases ex <;>
    simp [retry_async_factory, retry_sync_factory, applyOverrides]

/-- C8 counterexample: passing max_retries = 5 to the decorator factory
writes 5 into the caller's config (retry_utils.py lines 74-75): the config
the retry decisions read no longer carries the max_retries = 3 it was
constructed with. -/
theorem retry_factory_mutates_cex :
    (retry_async_factory (some defaultRetryConfig) (some 5) none none).max_retries ≠
      defaultRetryConfig.max_retries := by
  decide

/-- C9 (amended): for every operation wrapped by healthy_browser_required:
if the health check on the current page reports healthy, no recovery is
attempted and the operation runs with self unchanged; if it reports
unhealthy and the caller has a usable browser_context, exactly one
replacement-page creation is attempted and the operation runs whether or
not that attempt raised; if the caller has no browser_context, no recovery
is attempted and the operation still runs. -/
theorem guard_recovery (ttl : ℚ) (cache : HealthCache) (now : ℚ) (s : SelfModel)
    (p : PageModel) (newPage : Except Unit PageModel)
    (hp : s.agent_current_page = some p) :
    ((is_page_healthy ttl cache now (some p)).1 = true →
      (healthy_browser_required_run ttl cache now s newPage).recoveryAttempts = 0 ∧
      (healthy_browser_required_run ttl cache now s newPage).opInvoked = true ∧
      (healthy_browser_required_run ttl cache now s newPage).selfAfter = s) ∧
    ((is_page_healthy ttl cache now (some p)).1 = false → s.browser_context = true →
      (healthy_browser_required_run ttl cache now s newPage).recoveryAttempts = 1 ∧
      (healthy_browser_required_run ttl cache now s newPage).opInvoked = true) ∧
    ((is_page_healthy ttl cache now (some p)).1 = false → s.browser_context = false →
      (healthy_browser_required_run ttl cache now s newPage).recoveryAttempts = 0 ∧
      (healthy_browser_required_run ttl cache now s newPage).opInvoked = true) := by
  refine ⟨?_, ?_, ?_⟩
  · intro hh
    simp [healthy_browser_required_run, hp, hh]
  · intro hh hbc
    cases newPage with
    | ok np => simp [healthy_browser_required_run, hp, hh, hbc]
    | error u => simp [healthy_browser_required_run, hp, hh, hbc]
  · intro hh hbc
    simp [healthy_browser_required_run, hp, hh, hbc]

theorem guard_recovery_witness :
    (healthy_browser_required_run 2 emptyHealthCache 0
        { agent_current_page := some ⟨0, false, ProbeOutcome.value 2⟩, browser_context := true }
        (Except.ok ⟨1, false, ProbeOutcome.value 2⟩)).recoveryAttempts = 0 ∧
    (healthy_browser_required_run 2 emptyHealthCache 0
        { agent_current_page := some ⟨0, false, ProbeOutcome.value 2⟩, browser_context := true }
        (Except.ok ⟨1, false, ProbeOutcome.value 2⟩)).opInvoked = true ∧
    (healthy_browser_required_run 2 emptyHealthCache 0
        { agent_current_page := some ⟨0, false, ProbeOutcome.value 2⟩, browser_context := true }
        (Except.ok ⟨1, false, ProbeOutcome.value 2⟩)).selfAfter =
      { agent_current_page := some ⟨0, false, ProbeOutcome.value 2⟩, browser_context := true } :=
  (guard_recovery 2 emptyHealthCache 0
      { agent_current_page := some ⟨0, false, ProbeOutcome.value 2⟩, browser_context := true }
      ⟨0, false, ProbeOutcome.value 2⟩
      (Except.ok ⟨1, false, ProbeOutcome.value 2⟩) rfl).1 rfl

/-- C9 counterexample: a caller whose current page the health check reports
unhealthy but whose browser_context attribute is absent/None gets zero
recovery attempts — not exactly one — and the operation is invoked
anyway. -/
theorem guard_recovery_cex :
    (is_page_healthy 2 emptyHealthCache 0 (some ⟨0, true, ProbeOutcome.raises⟩)).1 = false ∧
    (healthy_browser_required_run 2 emptyHealthCache 0
        { agent_current_page := some ⟨0, true, ProbeOutcome.raises⟩, browser_context := false }
        (Except.ok ⟨1, false, ProbeOutcome.value 2⟩)).recoveryAttempts = 0 ∧
    (healthy_browser_required_run 2 emptyHealthCache 0
        { agent_current_page := some ⟨0, true, ProbeOutcome.raises⟩, browser_context := false }
        (Except.ok ⟨1, false, ProbeOutcome.value 2⟩)).opInvoked = true :=
  ⟨rfl, rfl, rfl⟩

/-- C10 (amended): a failure whose exception is not an instance of
expected_exception propagates through call/async_call with the
failure count and the last-failure timestamp unchanged — it is never
counted toward the threshold — and the stored state is exactly the one
produced by the entry-state read, whose only possible effect is the lazy
open→half-open transition once recovery_timeout has elapsed since a
truthy (nonzero) last-failure timestamp. -/
theorem cb_unexpected_frame (cfg : CBConfig) (now : ℚ) (ε : Type)
    (isExp : ε → Bool) (e : ε) (s : CBState) (hne : isExp e = false)
    (hst : (readState cfg now s).1 ≠ .opened) :
    CBcall cfg now (some e) isExp s = (.raised e, (readState cfg now s).2, true) ∧
    (readState cfg now s).2.failure_count = s.failure_count ∧
    (readState cfg now s).2.last_failure_time = s.last_failure_time := by
  refine ⟨?_, (readState_frame cfg now s).1, (readState_frame cfg now s).2⟩
  simp [CBcall, hst, hne]

theorem cb_unexpected_frame_witness :
    CBcall ⟨5, 60⟩ 0 (some 0) (fun _ : Nat => false) cbInit =
      (CallResult.raised 0, (readState ⟨5, 60⟩ 0 cbInit).2, true) ∧
    (readState ⟨5, 60⟩ 0 cbInit).2.failure_count = cbInit.failure_count ∧
    (readState ⟨5, 60⟩ 0 cbInit).2.last_failure_time = cbInit.last_failure_time :=
  cb_unexpected_frame ⟨5, 60⟩ 0 Nat (fun _ => false) 0 cbInit rfl (by decide)

/-- C10 counterexample: with the breaker open, a truthy (nonzero)
last-failure timestamp and recovery_timeout already elapsed
(last failure at t = 1, call at t = 100, timeout 60), a call whose
operation raises a non-expected exception propagates it (the operation was
invoked), yet the stored state is half-open, not the open it was before
the call — the state is not left exactly as it was. -/
theorem cb_unexpected_cex :
    (CBcall ⟨5, 60⟩ 100 (some 0) (fun _ : Nat => false)
        ⟨3, some 1, CBStatus.opened⟩).1 = CallResult.raised 0 ∧
    (CBcall ⟨5, 60⟩ 100 (some 0) (fun _ : Nat => false)
        ⟨3, some 1, CBStatus.opened⟩).2.2 = true ∧
    (CBcall ⟨5, 60⟩ 100 (some 0) (fun _ : Nat => false)
        ⟨3, some 1, CBStatus.opened⟩).2.1.status ≠ CBStatus.opened := by
  have h1 : (60 : ℚ) < 100 - 1 := by norm_num
  have h2 : (1 : ℚ) ≠ 0 := by norm_num
  simp [CBcall, readState, h1, h2]

end BrowserUseOpt
